import Mathlib

/-!
Verification of the dillnet hybrid sequence model (src/dillnet/dillnet.py)
against its natural-language specification.

Shallow embedding conventions:
* tensors are total functions over `Fin`-typed index spaces with values in `ℝ`
  (or, for the scan engine, an arbitrary commutative ring, so that concrete
  counterexamples can be evaluated over `ℤ`);
* the associative-scan engine works on the scan (time) axis only and is
  elementwise across every other axis, so a "tensor pair (A, Bu) with leading
  scan axis" is embedded as a `List (R × R)` — the source keeps the A and Bu
  tensors in two parallel arrays that are always sliced in lockstep, which is
  isomorphic to a single list of pairs; instantiating `R` with a pointwise
  function ring recovers arbitrary trailing shape;
* Python slices `x[a:b]` become `List.take`/`List.drop`; `torch.cat` on the
  leading axis becomes `++`;
* the two `while` loops of `associative_scan` are embedded with an explicit
  fuel argument large enough for the loop to run to completion (the source
  loop doubles `stride` until `stride >= num_elems`, resp. halves it to 0);
  fuel-sufficiency lemmas (`upSweepAux_exits`, `downSweepAux_fuel_eq`) show
  the fuel never truncates the iteration;
* dropout layers are modelled as the identity (evaluation mode / dropout
  disabled, as in the spec's determinism clause), and gradient checkpointing
  (`MambaBlock.forward = checkpoint(_forward_logic)`) is numerically the
  identity wrapper around `_forward_logic`;
* fallible tensor-engine operations (`view` with a non-dividing head count,
  `torch.stack` of mismatched even/odd halves in the rotary embedding when
  the rotated dimension is odd) are embedded as `Option`-returning functions,
  `none` standing for a raised shape error.
-/

/-- Logistic sigmoid, `torch.sigmoid`. -/
noncomputable def sigmoid (x : ℝ) : ℝ := 1 / (1 + Real.exp (-x))

/-- SiLU activation `F.silu`: `x * sigmoid x`. -/
noncomputable def silu (x : ℝ) : ℝ := x * sigmoid x

/-- Softplus `F.softplus`: `log (1 + exp x)`. -/
noncomputable def softplus (x : ℝ) : ℝ := Real.log (1 + Real.exp x)

/-- Tensor of shape `(batch, time, channels)`. -/
abbrev Tensor3 (B T D : ℕ) := Fin B → Fin T → Fin D → ℝ

/-- Parameters of `nn.Linear(din, dout)`. -/
structure Linear (din dout : ℕ) where
  weight : Fin dout → Fin din → ℝ
  bias : Fin dout → ℝ

/-- Application of `nn.Linear` along the last axis: `y = x Wᵀ + b`. -/
noncomputable def Linear.apply {din dout : ℕ} (f : Linear din dout)
    (v : Fin din → ℝ) : Fin dout → ℝ :=
  fun o => (∑ i, f.weight o i * v i) + f.bias o

/-- Parameters of `RMSNorm` (learned per-feature weight and epsilon). -/
structure RMSNormParams (dim : ℕ) where
  weight : Fin dim → ℝ
  eps : ℝ

/-- Source `RMSNorm.forward` on one feature vector:
`x * rsqrt(mean(x^2) + eps) * weight`.  The `float()/type_as` precision
round-trip is the identity in the real-number model. -/
noncomputable def rmsNorm {dim : ℕ} (p : RMSNormParams dim) (v : Fin dim → ℝ) :
    Fin dim → ℝ :=
  fun d => v d * (Real.sqrt ((∑ i, v i ^ 2) / (dim : ℝ) + p.eps))⁻¹ * p.weight d

/-- `RMSNorm` mapped over the batch and time axes of a sequence tensor. -/
noncomputable def rmsNorm3 {B T D : ℕ} (p : RMSNormParams D) (x : Tensor3 B T D) :
    Tensor3 B T D :=
  fun b t => rmsNorm p (x b t)

section ScanEngine

variable {R : Type} [CommRing R]

/-- Source `binary_operator`: combine `(A_i, Bu_i)` with `(A_j, Bu_j)` to
`(A_j * A_i, A_j * Bu_i + Bu_j)` (`torch.addcmul(Bu_j, A_j, Bu_i)`).
All tensor operations are elementwise over the trailing axes, so the
combination acts on one trailing coordinate at a time. -/
def binary_operator (q_i q_j : R × R) : R × R :=
  (q_j.1 * q_i.1, q_j.1 * q_i.2 + q_j.2)

/-- One iteration of the first (`stride` doubling) loop of `associative_scan`:
`a = scanned[:-stride]`, `b = scanned[stride:]`,
`new = cat(scanned[:stride], binary_operator(a, b))`. -/
def upStep (l : List (R × R)) (stride : ℕ) : List (R × R) :=
  l.take stride ++ List.zipWith binary_operator (l.take (l.length - stride)) (l.drop stride)

/-- The first `while stride < num_elems` loop, with fuel.  Returns the final
array together with the final value of `stride`. -/
def upSweepAux : ℕ → List (R × R) → ℕ → List (R × R) × ℕ
  | 0, l, stride => (l, stride)
  | fuel + 1, l, stride =>
      if stride < l.length then upSweepAux fuel (upStep l stride) (2 * stride)
      else (l, stride)

/-- One iteration of the second (`stride` halving) loop of `associative_scan`:
`prev = scanned[stride-1:-stride]`, `curr = scanned[2*stride-1:]`,
`new = cat(scanned[:2*stride-1], binary_operator(prev, curr))`. -/
def downStep (l : List (R × R)) (stride : ℕ) : List (R × R) :=
  l.take (2 * stride - 1) ++
    List.zipWith binary_operator
      ((l.drop (stride - 1)).take ((l.length - stride) - (stride - 1)))
      (l.drop (2 * stride - 1))

/-- The second `while stride > 0` loop, with fuel. -/
def downSweepAux : ℕ → List (R × R) → ℕ → List (R × R)
  | 0, l, _ => l
  | fuel + 1, l, stride =>
      if stride = 0 then l
      else downSweepAux fuel (downStep l stride) (stride / 2)

/-- Source `associative_scan` on a pair of tensors with leading scan axis,
embedded as a list of `(A, Bu)` pairs.  Mirrors the early return for
`num_elems <= 1`, the doubling loop starting at `stride = 1`, and the halving
loop starting at the final doubling stride divided by two. -/
def associative_scan (elems : List (R × R)) : List (R × R) :=
  if elems.length ≤ 1 then elems
  else
    let up := upSweepAux elems.length elems 1
    downSweepAux (up.2 / 2 + 1) up.1 (up.2 / 2)

/-- Naive sequential recurrence `h_t = A_t * h_{t-1} + Bu_t` starting from
state `h0`; returns the list of the successive `h_t`. -/
def seqRecurAux (h0 : R) : List (R × R) → List R
  | [] => []
  | (a, bu) :: rest => (a * h0 + bu) :: seqRecurAux (a * h0 + bu) rest

/-- The reference sequential left-fold of `binary_operator`, read as the state
recurrence with implicit initial state `h_{-1} = 0`. -/
def seqRecur (l : List (R × R)) : List R := seqRecurAux 0 l

end ScanEngine

/-- Source `RotaryEmbedding.__init__` inverse frequencies:
`inv_freq[i] = 1 / 10000 ^ ((2 i) / dim)` for `i` ranging over the length of
`torch.arange(0, dim, 2)`, i.e. `i < (dim + 1) / 2`. -/
noncomputable def inv_freq (dim i : ℕ) : ℝ :=
  1 / (10000 : ℝ) ^ (((2 * i : ℕ) : ℝ) / (dim : ℝ))

/-- Rotation angle used at position `t`, channel `d`:
`emb = cat(freqs, freqs)` duplicates the half-length angle vector, so channel
`d` reads frequency index `d` if `d` is below the number of frequencies and
`d - (dim + 1) / 2` otherwise. -/
noncomputable def rotaryAngle (dim t d : ℕ) : ℝ :=
  (t : ℝ) * inv_freq dim (if d < (dim + 1) / 2 then d else d - (dim + 1) / 2)

/-- Source rotate-half tensor
`x_rot = torch.stack((-x2, x1), dim=-1).flatten(-2)` with `x1 = x[..., ::2]`,
`x2 = x[..., 1::2]`: channel `2k` holds `-x[2k+1]` and channel `2k+1` holds
`x[2k]`.  The `else 0` branch (even channel at the very end of an odd
dimension) is unreachable for even `dim`; for odd `dim` the source
`torch.stack` raises a shape error, which `retentionForward` models with its
evenness guard. -/
noncomputable def rotateHalf {T dim : ℕ} (x : Fin T → Fin dim → ℝ)
    (t : Fin T) (d : Fin dim) : ℝ :=
  if d.val % 2 = 0 then
    if h : d.val + 1 < dim then -(x t ⟨d.val + 1, h⟩) else 0
  else x t ⟨d.val - 1, Nat.lt_of_le_of_lt (Nat.sub_le _ _) d.isLt⟩

/-- Source `RotaryEmbedding.forward` on one `(time, dim)` slice:
`x * cos(emb) + x_rot * sin(emb)`. -/
noncomputable def rotaryForward {T : ℕ} (dim : ℕ) (x : Fin T → Fin dim → ℝ) :
    Fin T → Fin dim → ℝ :=
  fun t d =>
    x t d * Real.cos (rotaryAngle dim t.val d.val) +
      rotateHalf x t d * Real.sin (rotaryAngle dim t.val d.val)

/-- Parameters of the `Retention` module. -/
structure RetentionParams (embed_dim heads : ℕ) where
  w_q : Linear embed_dim embed_dim
  w_k : Linear embed_dim embed_dim
  w_v : Linear embed_dim embed_dim
  gate : Linear embed_dim embed_dim
  gamma_param : Fin heads → ℝ

/-- Source decay weight of `Retention.forward`:
`t_w[h, i, j] = exp(-sigmoid(gamma_param[h]) * clamp(i - j, min=0))`,
`i` the query index, `j` the key index. -/
noncomputable def retentionDecay {H : ℕ} (gamma_param : Fin H → ℝ)
    (h : Fin H) (i j : ℕ) : ℝ :=
  Real.exp (-(sigmoid (gamma_param h)) * ((max ((i : ℤ) - (j : ℤ)) 0 : ℤ) : ℝ))

/-- Source `Retention.forward`.  `head_dim = embed_dim // heads` (floor
division); `view(B, T, heads, head_dim)` raises unless
`heads * head_dim = embed_dim` (first guard), and the rotary embedding's
stride-2 stack raises unless `head_dim` is even (second guard); those raised
shape errors are modelled by `none`.  Dropout is the identity. -/
noncomputable def retentionForward {B T embed_dim heads : ℕ}
    (p : RetentionParams embed_dim heads) (x : Tensor3 B T embed_dim) :
    Option (Tensor3 B T embed_dim) :=
  let head_dim := embed_dim / heads
  if h1 : heads * head_dim = embed_dim then
    if h2 : head_dim % 2 = 0 then
      let Q : Tensor3 B T embed_dim := fun b t => Linear.apply p.w_q (x b t)
      let K : Tensor3 B T embed_dim := fun b t => Linear.apply p.w_k (x b t)
      let V : Tensor3 B T embed_dim := fun b t => Linear.apply p.w_v (x b t)
      -- `view(B, T, heads, head_dim).transpose(1, 2)`
      let split : Tensor3 B T embed_dim →
          Fin B → Fin heads → Fin T → Fin head_dim → ℝ :=
        fun z b hh t j => z b t ⟨hh.val * head_dim + j.val, by
          calc hh.val * head_dim + j.val < hh.val * head_dim + head_dim := by
                omega
            _ = (hh.val + 1) * head_dim := by ring
            _ ≤ heads * head_dim := Nat.mul_le_mul_right _ hh.isLt
            _ = embed_dim := h1⟩
      let Qr := fun b hh => rotaryForward head_dim (split Q b hh)
      let Kr := fun b hh => rotaryForward head_dim (split K b hh)
      let scores := fun (b : Fin B) (hh : Fin heads) (i j : Fin T) =>
        (∑ k, Qr b hh i k * Kr b hh j k) / Real.sqrt (head_dim : ℝ)
      let weighted := fun (b : Fin B) (hh : Fin heads) (i j : Fin T) =>
        scores b hh i j * retentionDecay p.gamma_param hh i.val j.val
      let outH := fun (b : Fin B) (hh : Fin heads) (i : Fin T) (jd : Fin head_dim) =>
        ∑ jj, weighted b hh i jj * split V b hh jj jd
      -- `transpose(1, 2).reshape(B, T, -1)`
      let merged : Tensor3 B T embed_dim := fun b t d =>
        outH b
          ⟨d.val / head_dim, by
            have hpos : 0 < head_dim := by
              rcases Nat.eq_zero_or_pos head_dim with h0 | h0
              · rw [h0, Nat.mul_zero] at h1
                exact absurd d.isLt (by omega)
              · exact h0
            exact (Nat.div_lt_iff_lt_mul hpos).mpr (by rw [h1]; exact d.isLt)⟩
          t
          ⟨d.val % head_dim, by
            have hpos : 0 < head_dim := by
              rcases Nat.eq_zero_or_pos head_dim with h0 | h0
              · rw [h0, Nat.mul_zero] at h1
                exact absurd d.isLt (by omega)
              · exact h0
            exact Nat.mod_lt _ hpos⟩
      some (fun b t d => silu (Linear.apply p.gate (x b t) d) * merged b t d)
    else none
  else none

/-- Claim C1 evaluation data: the length-2 input with every `A_t = 1`,
`Bu_t = 1` (scalar trailing shape, over `ℤ` for exact evaluation). -/
def c1Input : List (ℤ × ℤ) := [(1, 1), (1, 1)]

/-- Claim C2 evaluation data: a `(time, dim) = (2, 4)` slice that is `1` at
position `t = 1`, channel `0` and `0` elsewhere. -/
noncomputable def c2Input : Fin 2 → Fin 4 → ℝ :=
  fun t d => if t.val = 1 ∧ d.val = 0 then 1 else 0

/-- Causal depthwise convolution for one channel, as wired in `MambaBlock`:
`nn.Conv1d(kernel_size=d_conv, padding=d_conv-1, groups=embed_dim)` pads
`d_conv - 1` zeros on both sides and the caller truncates the output to the
first `T` positions (`[:, :, :T]`).  Output position `t < T` reads padded
positions `t + k`, i.e. original positions `t + k - (d_conv - 1) ≤ t`; reads
outside `[0, T)` hit the zero padding. -/
noncomputable def convCausal {T : ℕ} (d_conv : ℕ) (w : Fin d_conv → ℝ)
    (bias : ℝ) (u : Fin T → ℝ) (t : Fin T) : ℝ :=
  bias + ∑ k : Fin d_conv, w k *
    (if _h1 : d_conv ≤ t.val + k.val + 1 then
      (if h2 : t.val + k.val + 1 - d_conv < T then u ⟨t.val + k.val + 1 - d_conv, h2⟩ else 0)
     else 0)

/-- Parameters of `MambaBlock` (the `conv1d` depthwise kernel is per-channel:
`groups = embed_dim`, so channel `d` has its own length-`d_conv` kernel and
bias).  `A_log` has source shape `(1, d_state)`, broadcast over channels. -/
structure MambaParams (embed_dim d_state d_conv dt_rank : ℕ) where
  in_proj : Linear embed_dim (embed_dim + embed_dim)
  conv_weight : Fin embed_dim → Fin d_conv → ℝ
  conv_bias : Fin embed_dim → ℝ
  x_proj : Linear embed_dim (dt_rank + (d_state + d_state))
  dt_proj : Linear dt_rank embed_dim
  A_log : Fin d_state → ℝ
  D : Fin embed_dim → ℝ
  out_proj : Linear embed_dim embed_dim

section MambaDefs

variable {B T embed_dim d_state d_conv dt_rank : ℕ}

/-- `x_and_res = self.in_proj(x)`. -/
noncomputable def mambaXandres (p : MambaParams embed_dim d_state d_conv dt_rank)
    (x : Tensor3 B T embed_dim) : Fin B → Fin T → Fin (embed_dim + embed_dim) → ℝ :=
  fun b t => Linear.apply p.in_proj (x b t)

/-- First half of the `chunk(2, dim=-1)` split of the input projection. -/
noncomputable def mambaXin (p : MambaParams embed_dim d_state d_conv dt_rank)
    (x : Tensor3 B T embed_dim) : Tensor3 B T embed_dim :=
  fun b t d => mambaXandres p x b t (Fin.castAdd embed_dim d)

/-- Second half of the split: the residual gate `res`. -/
noncomputable def mambaRes (p : MambaParams embed_dim d_state d_conv dt_rank)
    (x : Tensor3 B T embed_dim) : Tensor3 B T embed_dim :=
  fun b t d => mambaXandres p x b t (Fin.natAdd embed_dim d)

/-- `x_conv = F.silu(self.conv1d(x_in.transpose(1, 2))[:, :, :T].transpose(1, 2))`. -/
noncomputable def mambaXconv (p : MambaParams embed_dim d_state d_conv dt_rank)
    (x : Tensor3 B T embed_dim) : Tensor3 B T embed_dim :=
  fun b t d =>
    silu (convCausal d_conv (p.conv_weight d) (p.conv_bias d)
      (fun s => mambaXin p x b s d) t)

/-- `x_ssm = self.x_proj(x_conv)`. -/
noncomputable def mambaXssm (p : MambaParams embed_dim d_state d_conv dt_rank)
    (x : Tensor3 B T embed_dim) :
    Fin B → Fin T → Fin (dt_rank + (d_state + d_state)) → ℝ :=
  fun b t => Linear.apply p.x_proj (fun d => mambaXconv p x b t d)

/-- First `dt_rank` channels of the `torch.split` of `x_ssm`. -/
noncomputable def mambaDelta0 (p : MambaParams embed_dim d_state d_conv dt_rank)
    (x : Tensor3 B T embed_dim) : Fin B → Fin T → Fin dt_rank → ℝ :=
  fun b t r => mambaXssm p x b t (Fin.castAdd (d_state + d_state) r)

/-- Middle `d_state` channels of the split: `B_param`. -/
noncomputable def mambaBparam (p : MambaParams embed_dim d_state d_conv dt_rank)
    (x : Tensor3 B T embed_dim) : Fin B → Fin T → Fin d_state → ℝ :=
  fun b t n => mambaXssm p x b t (Fin.natAdd dt_rank (Fin.castAdd d_state n))

/-- Last `d_state` channels of the split: `C_param`. -/
noncomputable def mambaCparam (p : MambaParams embed_dim d_state d_conv dt_rank)
    (x : Tensor3 B T embed_dim) : Fin B → Fin T → Fin d_state → ℝ :=
  fun b t n => mambaXssm p x b t (Fin.natAdd dt_rank (Fin.natAdd d_state n))

/-- `delta = F.softplus(self.dt_proj(delta))`. -/
noncomputable def mambaDelta (p : MambaParams embed_dim d_state d_conv dt_rank)
    (x : Tensor3 B T embed_dim) : Tensor3 B T embed_dim :=
  fun b t d => softplus (Linear.apply p.dt_proj (mambaDelta0 p x b t) d)

end MambaDefs

/-- `A = -exp(A_log)` inside `selective_scan`. -/
noncomputable def ssmA {d_state : ℕ} (A_log : Fin d_state → ℝ) : Fin d_state → ℝ :=
  fun n => -Real.exp (A_log n)

/-- `deltaA = exp(delta ⊗ A)`, elementwise per batch/time/channel/state. -/
noncomputable def ssmDeltaA {B T embed_dim d_state : ℕ} (A_log : Fin d_state → ℝ)
    (delta : Tensor3 B T embed_dim) :
    Fin B → Fin T → Fin embed_dim → Fin d_state → ℝ :=
  fun b t d n => Real.exp (delta b t d * ssmA A_log n)

/-- `deltaB_u = (delta ⊗ B) ⊗ u`, elementwise per batch/time/channel/state. -/
noncomputable def ssmDeltaBu {B T embed_dim d_state : ℕ}
    (delta : Tensor3 B T embed_dim) (Bp : Fin B → Fin T → Fin d_state → ℝ)
    (u : Tensor3 B T embed_dim) :
    Fin B → Fin T → Fin embed_dim → Fin d_state → ℝ :=
  fun b t d n => (delta b t d * Bp b t n) * u b t d

/-- Source `MambaBlock.selective_scan(u, delta, B, C)`.  The permutation of
the time axis to the front and the flattening of `(batch, channel, state)`
into one trailing axis are embedded by running the list-based scan over the
pointwise function ring on `Fin B × Fin embed_dim × Fin d_state`; the scan's
`Bu` output at time `t` is then read back per `(b, d, n)` and contracted
against `C_param` over the state axis. -/
noncomputable def selective_scan {B T embed_dim d_state : ℕ}
    (A_log : Fin d_state → ℝ) (u delta : Tensor3 B T embed_dim)
    (Bp Cp : Fin B → Fin T → Fin d_state → ℝ) : Tensor3 B T embed_dim :=
  let elems : List ((Fin B × Fin embed_dim × Fin d_state → ℝ) ×
      (Fin B × Fin embed_dim × Fin d_state → ℝ)) :=
    List.ofFn (fun t : Fin T =>
      (fun i => ssmDeltaA A_log delta i.1 t i.2.1 i.2.2,
       fun i => ssmDeltaBu delta Bp u i.1 t i.2.1 i.2.2))
  let scanned := associative_scan elems
  fun b t d => ∑ n, ((scanned.getD t.val (0, 0)).2 (b, d, n)) * Cp b t n

/-- Source `MambaBlock._forward_logic` (the numerically relevant content of
`MambaBlock.forward`; the gradient-checkpoint wrapper recomputes the same
function and does not change the forward value).  Note the scan is driven by
`x_conv` (the convolved, SiLU-activated signal) and the skip term is
`x_conv * D`: `y = self.selective_scan(x_conv, ...)`, `y = y + x_conv * self.D`. -/
noncomputable def mambaForwardLogic {B T embed_dim d_state d_conv dt_rank : ℕ}
    (p : MambaParams embed_dim d_state d_conv dt_rank) (x : Tensor3 B T embed_dim) :
    Tensor3 B T embed_dim :=
  fun b t => Linear.apply p.out_proj (fun d =>
    (selective_scan p.A_log (mambaXconv p x) (mambaDelta p x)
        (mambaBparam p x) (mambaCparam p x) b t d
      + mambaXconv p x b t d * p.D d) * silu (mambaRes p x b t d))

/-- Modelled from the claim wording of C3 (not from the source): the same
block but with the scan's driven term formed from `x_in` (the pre-convolution
half of the input projection) and the skip term `x_in * D`.  Used only to
compare against the faithful `mambaForwardLogic`. -/
noncomputable def mambaForwardLogicSpecClaim {B T embed_dim d_state d_conv dt_rank : ℕ}
    (p : MambaParams embed_dim d_state d_conv dt_rank) (x : Tensor3 B T embed_dim) :
    Tensor3 B T embed_dim :=
  fun b t => Linear.apply p.out_proj (fun d =>
    (selective_scan p.A_log (mambaXin p x) (mambaDelta p x)
        (mambaBparam p x) (mambaCparam p x) b t d
      + mambaXin p x b t d * p.D d) * silu (mambaRes p x b t d))

/-- The spec's step list for the selective state-space mixer (section 4.5),
transcribed with the amended wording: the driven term is
`(delta ⊗ B_param) ⊗ x_conv` and the skip term is `x_conv * D`, where
`x_conv` is the convolved, SiLU-activated signal. -/
noncomputable def mambaForwardLogicAmendedSpec {B T embed_dim d_state d_conv dt_rank : ℕ}
    (p : MambaParams embed_dim d_state d_conv dt_rank) (x : Tensor3 B T embed_dim) :
    Tensor3 B T embed_dim :=
  let x_and_res := fun b t => Linear.apply p.in_proj (x b t)
  let x_in : Tensor3 B T embed_dim := fun b t d => x_and_res b t (Fin.castAdd embed_dim d)
  let res : Tensor3 B T embed_dim := fun b t d => x_and_res b t (Fin.natAdd embed_dim d)
  let x_conv : Tensor3 B T embed_dim := fun b t d =>
    silu (convCausal d_conv (p.conv_weight d) (p.conv_bias d) (fun s => x_in b s d) t)
  let x_ssm := fun b t => Linear.apply p.x_proj (fun d => x_conv b t d)
  let delta : Tensor3 B T embed_dim := fun b t d =>
    softplus (Linear.apply p.dt_proj
      (fun r => x_ssm b t (Fin.castAdd (d_state + d_state) r)) d)
  let B_param := fun b t n => x_ssm b t (Fin.natAdd dt_rank (Fin.castAdd d_state n))
  let C_param := fun b t n => x_ssm b t (Fin.natAdd dt_rank (Fin.natAdd d_state n))
  let y := selective_scan p.A_log x_conv delta B_param C_param
  fun b t => Linear.apply p.out_proj (fun d =>
    (y b t d + x_conv b t d * p.D d) * silu (res b t d))

/-- The two mixer variants a `DillNetBlock` can hold, selected by
`use_mamba` in `DillNetBlock.__init__`. -/
inductive MixerParams (embed_dim heads d_state d_conv dt_rank : ℕ) where
  | retention (p : RetentionParams embed_dim heads)
  | mamba (p : MambaParams embed_dim d_state d_conv dt_rank)

/-- Which variant a mixer is (`true` for the selective state-space mixer). -/
def MixerParams.isMamba {embed_dim heads d_state d_conv dt_rank : ℕ} :
    MixerParams embed_dim heads d_state d_conv dt_rank → Bool
  | .retention _ => false
  | .mamba _ => true

/-- Forward through whichever mixer the block holds.  `MambaBlock.forward`
wraps `_forward_logic` in gradient checkpointing, which recomputes the same
function on the backward pass and is the identity on the forward value. -/
noncomputable def mixerForward {B T embed_dim heads d_state d_conv dt_rank : ℕ}
    (m : MixerParams embed_dim heads d_state d_conv dt_rank)
    (x : Tensor3 B T embed_dim) : Option (Tensor3 B T embed_dim) :=
  match m with
  | .retention p => retentionForward p x
  | .mamba p => some (mambaForwardLogic p x)

/-- Parameters of one `DillNetBlock`. -/
structure DillNetBlockParams (embed_dim heads ffn_dim d_state d_conv dt_rank : ℕ) where
  norm1 : RMSNormParams embed_dim
  attention_layer : MixerParams embed_dim heads d_state d_conv dt_rank
  norm2 : RMSNormParams embed_dim
  w1 : Linear embed_dim ffn_dim
  w2 : Linear embed_dim ffn_dim
  w3 : Linear ffn_dim embed_dim

/-- Source `DillNetBlock.forward`:
`x = x + attention_layer(norm1(x))`, then
`x = x + dropout(w3(silu(w1(norm2(x))) * w2(norm2(x))))` (dropout is the
identity in evaluation mode).  A shape error raised by the mixer propagates. -/
noncomputable def blockForward {B T embed_dim heads ffn_dim d_state d_conv dt_rank : ℕ}
    (p : DillNetBlockParams embed_dim heads ffn_dim d_state d_conv dt_rank)
    (x : Tensor3 B T embed_dim) : Option (Tensor3 B T embed_dim) :=
  (mixerForward p.attention_layer (rmsNorm3 p.norm1 x)).map (fun attn =>
    let x1 : Tensor3 B T embed_dim := fun b t d => x b t d + attn b t d
    let normed := rmsNorm3 p.norm2 x1
    let ffn := fun b t => Linear.apply p.w3 (fun f =>
      silu (Linear.apply p.w1 (normed b t) f) * Linear.apply p.w2 (normed b t) f)
    fun b t d => x1 b t d + ffn b t d)

/-- Parameters of the whole network. -/
structure DillNetParams (embed_dim heads ffn_dim d_state d_conv dt_rank : ℕ) where
  blocks : List (DillNetBlockParams embed_dim heads ffn_dim d_state d_conv dt_rank)
  final_norm : RMSNormParams embed_dim

/-- Source `DillNet.forward`: fold the input through the blocks, then apply
the final normalization. -/
noncomputable def dillNetForward {B T embed_dim heads ffn_dim d_state d_conv dt_rank : ℕ}
    (p : DillNetParams embed_dim heads ffn_dim d_state d_conv dt_rank)
    (x : Tensor3 B T embed_dim) : Option (Tensor3 B T embed_dim) :=
  (p.blocks.foldl (fun acc blk => acc.bind (blockForward blk)) (some x)).map
    (rmsNorm3 p.final_norm)

/-- Weight suppliers standing for the random parameter initialization of
`DillNet.__init__`: the constructor decides only the wiring, the concrete
weights are arbitrary.  The state-space dimensions are the `MambaBlock`
defaults used by `DillNetBlock.__init__`: `d_state = 16`, `d_conv = 4`,
`dt_rank = ceil(embed_dim / 16) = (embed_dim + 15) / 16`. -/
structure DillNetSuppliers (embed_dim heads ffn_dim : ℕ) where
  retention : ℕ → RetentionParams embed_dim heads
  mamba : ℕ → MambaParams embed_dim 16 4 ((embed_dim + 15) / 16)
  norm1 : ℕ → RMSNormParams embed_dim
  norm2 : ℕ → RMSNormParams embed_dim
  w1 : ℕ → Linear embed_dim ffn_dim
  w2 : ℕ → Linear embed_dim ffn_dim
  w3 : ℕ → Linear ffn_dim embed_dim
  final_norm : RMSNormParams embed_dim

/-- Source `DillNetBlock.__init__`: the mixer is `MambaBlock(embed_dim)`
when `use_mamba` and `Retention(embed_dim, heads, dropout)` otherwise. -/
def mkDillNetBlock (embed_dim heads ffn_dim : ℕ) (use_mamba : Bool) (i : ℕ)
    (s : DillNetSuppliers embed_dim heads ffn_dim) :
    DillNetBlockParams embed_dim heads ffn_dim 16 4 ((embed_dim + 15) / 16) :=
  { norm1 := s.norm1 i
    attention_layer :=
      if use_mamba then .mamba (s.mamba i) else .retention (s.retention i)
    norm2 := s.norm2 i
    w1 := s.w1 i
    w2 := s.w2 i
    w3 := s.w3 i }

/-- Source `DillNet.__init__`: `depth` blocks with
`use_mamba = (i % 2 != 0)`, followed by a final `RMSNorm`. -/
def mkDillNet (embed_dim depth heads ffn_dim : ℕ)
    (s : DillNetSuppliers embed_dim heads ffn_dim) :
    DillNetParams embed_dim heads ffn_dim 16 4 ((embed_dim + 15) / 16) :=
  { blocks := (List.range depth).map
      (fun i => mkDillNetBlock embed_dim heads ffn_dim (i % 2 != 0) i s)
    final_norm := s.final_norm }

/-- Nested-list rendering of a `(batch, time, channels)` tensor, used to talk
about runtime shapes concretely. -/
noncomputable def toList3 {B T D : ℕ} (x : Tensor3 B T D) : List (List (List ℝ)) :=
  List.ofFn (fun b => List.ofFn (fun t => List.ofFn (fun d => x b t d)))

/-- Shape of a nested-list tensor: outer length, then the lengths of the
first rows. -/
def shape3 (l : List (List (List ℝ))) : ℕ × ℕ × ℕ :=
  (l.length, (l.getD 0 []).length, ((l.getD 0 []).getD 0 []).length)

/-- All-zero linear layer, used for concrete instantiations. -/
noncomputable def zeroLinear (din dout : ℕ) : Linear din dout :=
  ⟨fun _ _ => 0, fun _ => 0⟩

/-- Default-initialized RMSNorm parameters (weight ones, `eps = 1e-8`). -/
noncomputable def defaultRMSNorm (dim : ℕ) : RMSNormParams dim :=
  ⟨fun _ => 1, 1e-8⟩

/-- All-zero retention parameters, used for concrete instantiations. -/
noncomputable def zeroRetention (embed_dim heads : ℕ) : RetentionParams embed_dim heads :=
  ⟨zeroLinear embed_dim embed_dim, zeroLinear embed_dim embed_dim,
   zeroLinear embed_dim embed_dim, zeroLinear embed_dim embed_dim, fun _ => 0⟩

/-- All-zero Mamba parameters, used for concrete instantiations. -/
noncomputable def zeroMamba (embed_dim d_state d_conv dt_rank : ℕ) :
    MambaParams embed_dim d_state d_conv dt_rank :=
  ⟨zeroLinear embed_dim (embed_dim + embed_dim), fun _ _ => 0, fun _ => 0,
   zeroLinear embed_dim (dt_rank + (d_state + d_state)),
   zeroLinear dt_rank embed_dim, fun _ => 0, fun _ => 0,
   zeroLinear embed_dim embed_dim⟩

/-- All-zero weight suppliers, used for concrete instantiations. -/
noncomputable def zeroSuppliers (embed_dim heads ffn_dim : ℕ) :
    DillNetSuppliers embed_dim heads ffn_dim :=
  ⟨fun _ => zeroRetention embed_dim heads,
   fun _ => zeroMamba embed_dim 16 4 ((embed_dim + 15) / 16),
   fun _ => defaultRMSNorm embed_dim, fun _ => defaultRMSNorm embed_dim,
   fun _ => zeroLinear embed_dim ffn_dim, fun _ => zeroLinear embed_dim ffn_dim,
   fun _ => zeroLinear ffn_dim embed_dim, defaultRMSNorm embed_dim⟩

/-- Claim C3 concrete parameters (`embed_dim = d_state = d_conv = dt_rank = 1`):
the input projection has zero weights and bias `(0, 1)` (so `x_in = 0`,
`res = 1`), the convolution has zero weight and bias `1`, `x_proj` has zero
weights and bias `(0, 1, 1)` (so `delta_raw = 0`, `B_param = C_param = 1`),
`dt_proj` is zero (so `delta = softplus 0 = log 2`), `D = 1`, and the output
projection is the identity-like weight `1` with zero bias. -/
noncomputable def c3Params : MambaParams 1 1 1 1 :=
  { in_proj := ⟨fun _ _ => 0, fun o => if o.val = 0 then 0 else 1⟩
    conv_weight := fun _ _ => 0
    conv_bias := fun _ => 1
    x_proj := ⟨fun _ _ => 0, fun o => if o.val = 0 then 0 else 1⟩
    dt_proj := zeroLinear 1 1
    A_log := fun _ => 0
    D := fun _ => 1
    out_proj := ⟨fun _ _ => 1, fun _ => 0⟩ }

/-- Claim C3 concrete input: the all-zero `(1, 1, 1)` tensor. -/
noncomputable def c3Input : Tensor3 1 1 1 := fun _ _ _ => 0

/-- Claim C9 concrete input: the all-zero `(1, 1, 1)` tensor. -/
noncomputable def c9Input : Tensor3 1 1 1 := fun _ _ _ => 0

-- ===================================================================
-- Theorems
-- ===================================================================

theorem upStep_length {R : Type} [CommRing R] {l : List (R × R)} {stride : ℕ}
    (h : stride ≤ l.length) : (upStep l stride).length = l.length := by
  simp only [upStep, List.length_append, List.length_take, List.length_zipWith,
    List.length_drop]
  omega

/-- Fuel sufficiency for the doubling loop: as soon as `2 ^ fuel * stride` has
reached the array length, the loop has exited within `fuel` iterations, i.e.
the returned stride is `≥` the length.  With the actual call
(`fuel = length`, `stride = 1`) the hypothesis holds because `n ≤ 2 ^ n`. -/
theorem upSweepAux_exits {R : Type} [CommRing R] (fuel : ℕ) (l : List (R × R))
    (stride : ℕ) (h : l.length ≤ 2 ^ fuel * stride) :
    (upSweepAux fuel l stride).1.length ≤ (upSweepAux fuel l stride).2 := by
  induction fuel generalizing l stride with
  | zero =>
      simp only [upSweepAux]
      simpa using h
  | succ fuel ih =>
      simp only [upSweepAux]
      by_cases hlt : stride < l.length
      · simp only [hlt, if_true]
        have hlen : (upStep l stride).length = l.length :=
          upStep_length (le_of_lt hlt)
        apply ih
        rw [hlen]
        calc l.length ≤ 2 ^ (fuel + 1) * stride := h
          _ = 2 ^ fuel * (2 * stride) := by ring
      · simp only [hlt, if_false]
        omega

/-- Fuel sufficiency for the halving loop: any fuel exceeding the starting
stride gives the same result, so fuel `stride + 1` never truncates. -/
theorem downSweepAux_fuel_eq {R : Type} [CommRing R] (stride : ℕ) :
    ∀ fuel₁ fuel₂ : ℕ, stride < fuel₁ → stride < fuel₂ →
      ∀ l : List (R × R), downSweepAux fuel₁ l stride = downSweepAux fuel₂ l stride := by
  induction stride using Nat.strong_induction_on with
  | _ stride ih =>
      intro fuel₁ fuel₂ h₁ h₂ l
      match fuel₁, fuel₂ with
      | f₁ + 1, f₂ + 1 =>
          simp only [downSweepAux]
          by_cases hz : stride = 0
          · simp [hz]
          · simp only [hz, if_false]
            exact ih (stride / 2) (Nat.div_lt_self (Nat.pos_of_ne_zero hz) one_lt_two)
              f₁ f₂ (by omega) (by omega) _

theorem associative_scan_degenerate {R : Type} [CommRing R] (l : List (R × R))
    (h : l.length ≤ 1) : associative_scan l = l := by
  simp [associative_scan, h]

/-- C1: the parallel scan must match the sequential recurrence
`h_t = A_t * h_{t-1} + Bu_t`, `h_{-1} = 0`.  At the concrete input
`A = [1, 1]`, `Bu = [1, 1]` the recurrence gives `h = [1, 2]`, but the code
returns `Bu_total = [1, 3]`: the first loop already completes a full
Hillis-Steele inclusive scan, and the second loop then recombines the final
prefixes, double-counting earlier elements.  This refutes the claim on the
code. -/
theorem c1_scan_mismatch :
    (associative_scan c1Input).map Prod.snd = [1, 3] ∧
      seqRecur c1Input = [1, 2] ∧
      (associative_scan c1Input).map Prod.snd ≠ seqRecur c1Input := by
  refine ⟨by decide, by decide, by decide⟩

/-- C7: on a scan-axis length of 0 or 1, `associative_scan` returns its input
unchanged (the `num_elems <= 1` early return). -/
theorem c7_scan_identity_short {R : Type} [CommRing R] (l : List (R × R))
    (h : l.length ≤ 1) : associative_scan l = l :=
  associative_scan_degenerate l h

/-- Witness for C7 at the concrete length-1 input `[(2, 3)]` over `ℤ` and at
the empty input. -/
theorem c7_scan_identity_short_witness :
    associative_scan [((2 : ℤ), 3)] = [((2 : ℤ), 3)] ∧
      associative_scan ([] : List (ℤ × ℤ)) = [] :=
  ⟨c7_scan_identity_short [((2 : ℤ), 3)] (by decide),
   c7_scan_identity_short [] (by decide)⟩

/-- C2: the rotary embedding is claimed to preserve the squared norm of each
stride-2 pair `(x[2k], x[2k+1])`.  It does not: the rotate-half tensor pairs
channels `(2k, 2k+1)`, but the concatenated angle layout
`emb = cat(freqs, freqs)` gives those two channels the distinct angles
`t * inv_freq[2k]` and `t * inv_freq[2k+1]`, so the map on a pair is not a
rotation.  At `dim = 4`, position `t = 1`, input pair `(1, 0)` the output
pair is `(cos 1, sin (1/100))`, whose squared norm is at most
`(2/3)^2 + (1/100)^2 < 1`. -/
theorem c2_rotary_not_norm_preserving :
    rotaryForward 4 c2Input 1 0 ^ 2 + rotaryForward 4 c2Input 1 1 ^ 2 ≠
      c2Input 1 0 ^ 2 + c2Input 1 1 ^ 2 := by
  have hangle0 : rotaryAngle 4 1 0 = 1 := by
    simp [rotaryAngle, inv_freq]
  have hangle1 : rotaryAngle 4 1 1 = 1 / 100 := by
    have h100 : (10000 : ℝ) = (100 : ℝ) ^ (2 : ℕ) := by norm_num
    have hpow : (10000 : ℝ) ^ ((1 : ℝ) / 2) = 100 := by
      rw [h100, ← Real.rpow_natCast (100 : ℝ) 2,
        ← Real.rpow_mul (by norm_num : (0 : ℝ) ≤ 100)]
      norm_num
    simp only [rotaryAngle, inv_freq]
    norm_num [hpow]
  have e0 : rotaryForward 4 c2Input 1 0 = Real.cos 1 := by
    simp [rotaryForward, rotateHalf, c2Input, hangle0]
  have e1 : rotaryForward 4 c2Input 1 1 = Real.sin (1 / 100) := by
    simp [rotaryForward, rotateHalf, c2Input, hangle1]
  have hin : c2Input 1 0 ^ 2 + c2Input 1 1 ^ 2 = 1 := by
    simp [c2Input]
  rw [e0, e1, hin]
  have hc : Real.cos 1 ^ 2 ≤ (2 / 3 : ℝ) ^ 2 :=
    pow_le_pow_left₀ (le_of_lt Real.cos_one_pos) Real.cos_one_le 2
  have hs0 : (0 : ℝ) ≤ Real.sin (1 / 100) :=
    Real.sin_nonneg_of_nonneg_of_le_pi (by norm_num)
      (by nlinarith [Real.pi_gt_three])
  have hs : Real.sin (1 / 100) ^ 2 ≤ (1 / 100 : ℝ) ^ 2 :=
    pow_le_pow_left₀ hs0 (le_of_lt (Real.sin_lt (by norm_num))) 2
  nlinarith [hc, hs]

/-- C4: the retention decay weight is `1` whenever the query index `i` is at
or before the key index `j` (future keys are not masked out), and equals
`exp(-sigmoid(gamma_param[h]) * (i - j))` whenever `i > j`. -/
theorem c4_retention_decay {H : ℕ} (gamma_param : Fin H → ℝ) (h : Fin H)
    (i j : ℕ) :
    (i ≤ j → retentionDecay gamma_param h i j = 1) ∧
      (j < i → retentionDecay gamma_param h i j =
        Real.exp (-(sigmoid (gamma_param h)) * ((i : ℝ) - (j : ℝ)))) := by
  constructor
  · intro hij
    have hmax : max ((i : ℤ) - (j : ℤ)) 0 = 0 :=
      max_eq_right (by omega)
    rw [retentionDecay, hmax]
    simp
  · intro hij
    have hmax : max ((i : ℤ) - (j : ℤ)) 0 = (i : ℤ) - (j : ℤ) :=
      max_eq_left (by omega)
    rw [retentionDecay, hmax]
    push_cast
    ring_nf

/-- Witness for C4: with raw gamma `0`, the weight at `(i, j) = (0, 1)`
(future key) is exactly `1`, and at `(i, j) = (2, 1)` it is
`exp(-sigmoid 0 * 1)`. -/
theorem c4_retention_decay_witness :
    retentionDecay (fun _ : Fin 1 => (0 : ℝ)) 0 0 1 = 1 ∧
      retentionDecay (fun _ : Fin 1 => (0 : ℝ)) 0 2 1 =
        Real.exp (-(sigmoid 0) * 1) := by
  constructor
  · exact (c4_retention_decay (fun _ : Fin 1 => (0 : ℝ)) 0 0 1).1 (by norm_num)
  · have h := (c4_retention_decay (fun _ : Fin 1 => (0 : ℝ)) 0 2 1).2 (by norm_num)
    norm_num at h
    simpa using h

theorem sigmoid_pos (x : ℝ) : 0 < sigmoid x := by
  rw [sigmoid]
  positivity

theorem softplus_pos (x : ℝ) : 0 < softplus x := by
  rw [softplus]
  apply Real.log_pos
  nlinarith [Real.exp_pos x]

theorem mkDillNet_blocks_length (embed_dim depth heads ffn_dim : ℕ)
    (s : DillNetSuppliers embed_dim heads ffn_dim) :
    (mkDillNet embed_dim depth heads ffn_dim s).blocks.length = depth := by
  simp [mkDillNet]

/-- C5: the (truncated) depthwise convolution stage is causal — two
per-channel input signals that agree at all positions `≤ t` give the same
convolution output at position `t`. -/
theorem c5_conv_is_causal {T d_conv : ℕ} (w : Fin d_conv → ℝ) (bias : ℝ)
    (u v : Fin T → ℝ) (t : Fin T)
    (h : ∀ s : Fin T, s.val ≤ t.val → u s = v s) :
    convCausal d_conv w bias u t = convCausal d_conv w bias v t := by
  simp only [convCausal]
  congr 1
  apply Finset.sum_congr rfl
  intro k _
  congr 1
  by_cases h1 : d_conv ≤ t.val + k.val + 1
  · rw [dif_pos h1, dif_pos h1]
    by_cases h2 : t.val + k.val + 1 - d_conv < T
    · rw [dif_pos h2, dif_pos h2]
      refine h _ ?_
      show t.val + k.val + 1 - d_conv ≤ t.val
      have hk := k.isLt
      omega
    · rw [dif_neg h2, dif_neg h2]
  · rw [dif_neg h1, dif_neg h1]

/-- Witness for C5: kernel size 1 over a length-2 signal; the two signals
agree at position 0 (and differ at position 1), and the convolution outputs
at position 0 coincide. -/
theorem c5_conv_is_causal_witness :
    convCausal 1 (fun _ : Fin 1 => (1 : ℝ)) 0 (fun s : Fin 2 => (s.val : ℝ)) 0 =
      convCausal 1 (fun _ : Fin 1 => (1 : ℝ)) 0
        (fun s : Fin 2 => if s.val = 0 then 0 else 5) 0 :=
  c5_conv_is_causal _ _ _ _ _ (fun s hs => by
    have hz : s.val = 0 := by
      have := hs
      omega
    simp [hz])

/-- C6: in the network constructor, the block at 0-based index `i` holds the
selective state-space mixer exactly when `i` is odd (so Retention sits at
every even index), for every depth and independently of every other
configuration value and of the supplied weights. -/
theorem c6_mixer_alternation (embed_dim depth heads ffn_dim : ℕ)
    (s : DillNetSuppliers embed_dim heads ffn_dim) (i : ℕ) (hi : i < depth) :
    ((mkDillNet embed_dim depth heads ffn_dim s).blocks.get
        ⟨i, by rw [mkDillNet_blocks_length]; exact hi⟩).attention_layer.isMamba
      = (i % 2 != 0) := by
  simp only [mkDillNet, List.get_eq_getElem, List.getElem_map, List.getElem_range,
    mkDillNetBlock]
  cases hb : (i % 2 != 0) <;> simp [hb, MixerParams.isMamba]

/-- Witness for C6: with depth 6, the block at index 3 is the state-space
mixer (`3 % 2 != 0`). -/
theorem c6_mixer_alternation_witness :
    ((mkDillNet 1 6 1 4 (zeroSuppliers 1 1 4)).blocks.get
        ⟨3, by rw [mkDillNet_blocks_length]; norm_num⟩).attention_layer.isMamba
      = (3 % 2 != 0) :=
  c6_mixer_alternation 1 6 1 4 (zeroSuppliers 1 1 4) 3 (by norm_num)

/-- C10: every entry of `deltaA = exp(delta ⊗ A)` lies strictly between 0 and
1, because `delta = softplus(dt_proj(...)) > 0` and `A = -exp(A_log) < 0`. -/
theorem c10_deltaA_open_unit {B T embed_dim d_state d_conv dt_rank : ℕ}
    (p : MambaParams embed_dim d_state d_conv dt_rank) (x : Tensor3 B T embed_dim)
    (b : Fin B) (t : Fin T) (d : Fin embed_dim) (n : Fin d_state) :
    0 < ssmDeltaA p.A_log (mambaDelta p x) b t d n ∧
      ssmDeltaA p.A_log (mambaDelta p x) b t d n < 1 := by
  refine ⟨Real.exp_pos _, ?_⟩
  rw [ssmDeltaA, Real.exp_lt_one_iff]
  apply mul_neg_of_pos_of_neg
  · exact softplus_pos _
  · show -Real.exp (p.A_log n) < 0
    exact neg_lt_zero.mpr (Real.exp_pos _)

theorem foldlBlocks_none {B T embed_dim heads ffn_dim d_state d_conv dt_rank : ℕ}
    (bs : List (DillNetBlockParams embed_dim heads ffn_dim d_state d_conv dt_rank)) :
    bs.foldl (fun acc blk => acc.bind (blockForward blk))
      (none : Option (Tensor3 B T embed_dim)) = none := by
  induction bs with
  | nil => rfl
  | cons b bs ih => simpa using ih

theorem retentionForward_none_of_not_dvd {B T embed_dim heads : ℕ}
    (p : RetentionParams embed_dim heads) (x : Tensor3 B T embed_dim)
    (hnd : ¬ heads ∣ embed_dim) : retentionForward p x = none := by
  have hguard : ¬ heads * (embed_dim / heads) = embed_dim := fun hEq =>
    hnd ⟨embed_dim / heads, hEq.symm⟩
  simp only [retentionForward]
  rw [dif_neg hguard]

/-- C8: with `embed_dim` not divisible by `heads`, the `view` into
`(B, T, heads, head_dim)` inside `Retention.forward` fails (the element count
`heads * (embed_dim // heads)` cannot equal `embed_dim`), so the first
forward call of the retention layer — and hence of any freshly-constructed
network of positive depth, whose block 0 is a retention block — raises
instead of returning a value. -/
theorem c8_nondivisible_raises {B T embed_dim heads ffn_dim depth : ℕ}
    (p : RetentionParams embed_dim heads) (x y : Tensor3 B T embed_dim)
    (s : DillNetSuppliers embed_dim heads ffn_dim)
    (hnd : ¬ heads ∣ embed_dim) (hdepth : 0 < depth) :
    retentionForward p x = none ∧
      dillNetForward (mkDillNet embed_dim depth heads ffn_dim s) y = none := by
  refine ⟨retentionForward_none_of_not_dvd p x hnd, ?_⟩
  obtain ⟨dep, rfl⟩ : ∃ dep, depth = dep + 1 := ⟨depth - 1, by omega⟩
  have hb0 : blockForward (mkDillNetBlock embed_dim heads ffn_dim (0 % 2 != 0) 0 s) y
      = none := by
    have hfalse : ((0 % 2 != 0) : Bool) = false := by decide
    simp only [blockForward, mkDillNetBlock, hfalse, Bool.false_eq_true, if_false,
      mixerForward]
    rw [retentionForward_none_of_not_dvd _ _ hnd]
    rfl
  simp only [dillNetForward, mkDillNet, List.range_succ_eq_map, List.map_cons,
    List.foldl_cons, Option.some_bind, hb0, foldlBlocks_none, Option.map_none']

/-- Witness for C8 at `embed_dim = 4`, `heads = 3`, depth 1. -/
theorem c8_nondivisible_raises_witness :
    retentionForward (zeroRetention 4 3) ((fun _ _ _ => 0) : Tensor3 1 1 4) = none ∧
      dillNetForward (mkDillNet 4 1 3 1 (zeroSuppliers 4 3 1))
        ((fun _ _ _ => 0) : Tensor3 1 1 4) = none :=
  c8_nondivisible_raises (zeroRetention 4 3) _ _ (zeroSuppliers 4 3 1)
    (by decide) (by decide)

theorem shape3_toList3 {B T D : ℕ} (z : Tensor3 B T D)
    (hB : 0 < B) (hT : 0 < T) (hD : 0 < D) :
    shape3 (toList3 z) = (B, T, D) := by
  obtain ⟨b, rfl⟩ : ∃ b, B = b + 1 := ⟨B - 1, by omega⟩
  obtain ⟨t, rfl⟩ : ∃ t, T = t + 1 := ⟨T - 1, by omega⟩
  obtain ⟨d, rfl⟩ : ∃ d, D = d + 1 := ⟨D - 1, by omega⟩
  simp [shape3, toList3, List.ofFn_succ]

theorem retentionForward_some {B T embed_dim heads : ℕ}
    (p : RetentionParams embed_dim heads) (x : Tensor3 B T embed_dim)
    (hdiv : heads ∣ embed_dim) (heven : (embed_dim / heads) % 2 = 0) :
    ∃ y, retentionForward p x = some y := by
  have h1 : heads * (embed_dim / heads) = embed_dim := Nat.mul_div_cancel' hdiv
  simp only [retentionForward]
  rw [dif_pos h1, dif_pos heven]
  exact ⟨_, rfl⟩

theorem blockForward_some {B T embed_dim heads ffn_dim d_state d_conv dt_rank : ℕ}
    (bp : DillNetBlockParams embed_dim heads ffn_dim d_state d_conv dt_rank)
    (x : Tensor3 B T embed_dim)
    (hdiv : heads ∣ embed_dim) (heven : (embed_dim / heads) % 2 = 0) :
    ∃ y, blockForward bp x = some y := by
  simp only [blockForward]
  cases hm : bp.attention_layer with
  | retention q =>
      obtain ⟨z, hz⟩ := retentionForward_some q (rmsNorm3 bp.norm1 x) hdiv heven
      simp only [mixerForward, hz, Option.map_some']
      exact ⟨_, rfl⟩
  | mamba q =>
      simp only [mixerForward, Option.map_some']
      exact ⟨_, rfl⟩

theorem dillNetChain_some {B T embed_dim heads ffn_dim d_state d_conv dt_rank : ℕ}
    (hdiv : heads ∣ embed_dim) (heven : (embed_dim / heads) % 2 = 0)
    (bs : List (DillNetBlockParams embed_dim heads ffn_dim d_state d_conv dt_rank)) :
    ∀ x : Tensor3 B T embed_dim,
      ∃ y, bs.foldl (fun acc blk => acc.bind (blockForward blk)) (some x) = some y := by
  induction bs with
  | nil => exact fun x => ⟨x, rfl⟩
  | cons b bs ih =>
      intro x
      obtain ⟨x1, hx1⟩ := blockForward_some b x hdiv heven
      simpa [hx1] using ih x1

/-- C9 (amended): provided `embed_dim` is divisible by `heads` AND the
per-head dimension `embed_dim / heads` is even (the rotary embedding's
stride-2 pairing needs an even head dimension), the full network forward and
each sub-block (Retention, MambaBlock, DillNetBlock) succeed and preserve the
`(batch, time, embed_dim)` shape of the input. -/
theorem c9_shape_preservation {B T embed_dim heads ffn_dim d_state d_conv dt_rank : ℕ}
    (net : DillNetParams embed_dim heads ffn_dim d_state d_conv dt_rank)
    (x : Tensor3 B T embed_dim)
    (hdiv : heads ∣ embed_dim) (heven : (embed_dim / heads) % 2 = 0)
    (hB : 0 < B) (hT : 0 < T) (hD : 0 < embed_dim) :
    (∃ y, dillNetForward net x = some y ∧ shape3 (toList3 y) = (B, T, embed_dim)) ∧
    (∀ rp : RetentionParams embed_dim heads,
      ∃ yr, retentionForward rp x = some yr ∧ shape3 (toList3 yr) = (B, T, embed_dim)) ∧
    (∀ mp : MambaParams embed_dim d_state d_conv dt_rank,
      shape3 (toList3 (mambaForwardLogic mp x)) = (B, T, embed_dim)) ∧
    (∀ bp : DillNetBlockParams embed_dim heads ffn_dim d_state d_conv dt_rank,
      ∃ yb, blockForward bp x = some yb ∧ shape3 (toList3 yb) = (B, T, embed_dim)) := by
  refine ⟨?_, ?_, ?_, ?_⟩
  · obtain ⟨y, hy⟩ := dillNetChain_some hdiv heven net.blocks x
    exact ⟨rmsNorm3 net.final_norm y, by simp [dillNetForward, hy],
      shape3_toList3 _ hB hT hD⟩
  · intro rp
    obtain ⟨yr, hyr⟩ := retentionForward_some rp x hdiv heven
    exact ⟨yr, hyr, shape3_toList3 _ hB hT hD⟩
  · intro mp
    exact shape3_toList3 _ hB hT hD
  · intro bp
    obtain ⟨yb, hyb⟩ := blockForward_some bp x hdiv heven
    exact ⟨yb, hyb, shape3_toList3 _ hB hT hD⟩

/-- Witness for C9 at `embed_dim = 2`, `heads = 1` (even head dimension),
depth 0, on a `(1, 1, 2)` zero input. -/
theorem c9_shape_preservation_witness :
    ∃ y, dillNetForward (mkDillNet 2 0 1 1 (zeroSuppliers 2 1 1))
        ((fun _ _ _ => 0) : Tensor3 1 1 2) = some y ∧
      shape3 (toList3 y) = (1, 1, 2) :=
  (c9_shape_preservation (mkDillNet 2 0 1 1 (zeroSuppliers 2 1 1)) _
    (by decide) (by decide) (by decide) (by decide) (by decide)).1

/-- C9 counterexample to the unconditional claim: `embed_dim = 1`,
`heads = 1` is a valid configuration by the spec (`embed_dim` divisible by
`heads`), yet the head dimension is 1 (odd), the rotary embedding's stride-2
split has halves of lengths 1 and 0, `torch.stack` raises, and the first
forward call returns an error instead of a same-shaped tensor. -/
theorem c9_odd_head_dim_raises :
    dillNetForward (mkDillNet 1 1 1 1 (zeroSuppliers 1 1 1)) c9Input = none := by
  have hret : retentionForward (zeroRetention 1 1)
      (rmsNorm3 (defaultRMSNorm 1) c9Input) = none := by
    simp only [retentionForward]
    rw [dif_pos (by norm_num), dif_neg (by norm_num)]
  have hfalse : ((0 % 2 != 0) : Bool) = false := by decide
  have hb0 : blockForward (mkDillNetBlock 1 1 1 (0 % 2 != 0) 0 (zeroSuppliers 1 1 1))
      c9Input = none := by
    simp only [blockForward, mkDillNetBlock, hfalse, Bool.false_eq_true, if_false,
      mixerForward, zeroSuppliers]
    rw [hret]
    rfl
  have hr : List.range 1 = [0] := rfl
  simp only [dillNetForward, mkDillNet, hr, List.map_cons, List.map_nil,
    List.foldl_cons, List.foldl_nil, Option.some_bind, hb0, Option.map_none']

/-- C3 (amended): the scan's driven term and the pre-gate skip term are both
formed from `x_conv` — the convolved, SiLU-activated signal — not from the
raw `x_in` half of the input projection.  The faithful embedding of
`_forward_logic` coincides with the spec's step list amended accordingly. -/
theorem c3_conv_signal_feeds_scan {B T embed_dim d_state d_conv dt_rank : ℕ}
    (p : MambaParams embed_dim d_state d_conv dt_rank) (x : Tensor3 B T embed_dim) :
    mambaForwardLogic p x = mambaForwardLogicAmendedSpec p x := rfl

theorem c3_xin_eval (b t : Fin 1) (d : Fin 1) :
    mambaXin c3Params c3Input b t d = 0 := by
  simp [mambaXin, mambaXandres, Linear.apply, c3Params, c3Input]

theorem c3_res_eval (b t : Fin 1) (d : Fin 1) :
    mambaRes c3Params c3Input b t d = 1 := by
  simp [mambaRes, mambaXandres, Linear.apply, c3Params, c3Input]

theorem c3_xconv_eval (b t : Fin 1) (d : Fin 1) :
    mambaXconv c3Params c3Input b t d = sigmoid 1 := by
  simp [mambaXconv, convCausal, c3Params, silu]

theorem c3_delta_eval (b t : Fin 1) (d : Fin 1) :
    mambaDelta c3Params c3Input b t d = Real.log 2 := by
  simp [mambaDelta, Linear.apply, c3Params, zeroLinear, softplus, Real.exp_zero]
  norm_num

theorem c3_Bparam_eval (b t : Fin 1) (n : Fin 1) :
    mambaBparam c3Params c3Input b t n = 1 := by
  simp [mambaBparam, mambaXssm, Linear.apply, c3Params]

theorem c3_Cparam_eval (b t : Fin 1) (n : Fin 1) :
    mambaCparam c3Params c3Input b t n = 1 := by
  simp [mambaCparam, mambaXssm, Linear.apply, c3Params]

theorem c3_scan_code_eval :
    selective_scan c3Params.A_log (mambaXconv c3Params c3Input)
      (mambaDelta c3Params c3Input) (mambaBparam c3Params c3Input)
      (mambaCparam c3Params c3Input) 0 0 0 = Real.log 2 * sigmoid 1 := by
  simp only [selective_scan]
  simp [associative_scan, ssmDeltaBu, Fin.sum_univ_one, List.ofFn_succ,
    c3_delta_eval, c3_Bparam_eval, c3_Cparam_eval, c3_xconv_eval]

theorem c3_scan_spec_eval :
    selective_scan c3Params.A_log (mambaXin c3Params c3Input)
      (mambaDelta c3Params c3Input) (mambaBparam c3Params c3Input)
      (mambaCparam c3Params c3Input) 0 0 0 = 0 := by
  simp only [selective_scan]
  simp [associative_scan, ssmDeltaBu, Fin.sum_univ_one, List.ofFn_succ,
    c3_xin_eval]

theorem c3_code_eval :
    mambaForwardLogic c3Params c3Input 0 0 0 =
      (Real.log 2 * sigmoid 1 + sigmoid 1) * sigmoid 1 := by
  have hw : c3Params.out_proj.weight 0 0 = (1 : ℝ) := rfl
  have hb : c3Params.out_proj.bias 0 = (0 : ℝ) := rfl
  have hD : c3Params.D 0 = (1 : ℝ) := rfl
  simp only [mambaForwardLogic, Linear.apply, Fin.sum_univ_one]
  rw [c3_scan_code_eval, c3_xconv_eval, c3_res_eval, hw, hb, hD]
  simp [silu]

theorem c3_specclaim_eval :
    mambaForwardLogicSpecClaim c3Params c3Input 0 0 0 = 0 := by
  have hw : c3Params.out_proj.weight 0 0 = (1 : ℝ) := rfl
  have hb : c3Params.out_proj.bias 0 = (0 : ℝ) := rfl
  have hD : c3Params.D 0 = (1 : ℝ) := rfl
  simp only [mambaForwardLogicSpecClaim, Linear.apply, Fin.sum_univ_one]
  rw [c3_scan_spec_eval, c3_xin_eval, c3_res_eval, hw, hb, hD]
  simp [silu]

/-- C3 counterexample to the claim's wording: at the concrete parameters
`c3Params` and zero input, driving the scan and the skip from `x_in` (as the
claim states) yields output 0, while the code — which drives them from
`x_conv` — yields `(log 2 * sigmoid 1 + sigmoid 1) * sigmoid 1 > 0`. -/
theorem c3_spec_wording_refuted :
    mambaForwardLogic c3Params c3Input ≠ mambaForwardLogicSpecClaim c3Params c3Input := by
  intro hEq
  have h0 := congrFun (congrFun (congrFun hEq 0) 0) 0
  rw [c3_code_eval, c3_specclaim_eval] at h0
  have hs := sigmoid_pos 1
  have hl : 0 < Real.log 2 := Real.log_pos (by norm_num)
  have hpos : 0 < (Real.log 2 * sigmoid 1 + sigmoid 1) * sigmoid 1 :=
    mul_pos (add_pos (mul_pos hl hs) hs) hs
  exact (ne_of_gt hpos) h0
